import Mathlib

/-!
Verification development for the IBBLA attendance application (`src/App.jsx`).

Two shallow embeddings are used:

* a dynamic `JSValue` model for the state-shape normalizer `ensureStateShape`,
  which receives arbitrary (possibly malformed) JSON-like values.  JavaScript
  objects are modelled as association lists with unique keys (JS objects cannot
  hold duplicate keys); arrays carry both their elements and (rarely used)
  named properties, since JS arrays are objects.  Property access on `null` or
  `undefined` throws, and property *assignment* on a primitive throws as well
  (`App.jsx` is an ES module, hence strict mode); fallible code is embedded in
  `Except`.

* a typed model (`Doc`, `Clase`, `Alumno`, `Registro`) for the mutation
  operations and the statistics engine, which always run on normalized state.
  JS numbers are modelled as `Int`/`Nat` (the app only produces integers
  there); `Math.round` of the attendance percentage is modelled as exact
  rational round-half-up, noting that IEEE doubles could differ from the exact
  value only at half-way boundaries, which no claim depends on.

JavaScript string comparison (`<`, `>`, default `sort`, and `localeCompare` on
the ASCII date keys used here) is modelled as lexicographic comparison of the
code points (`strLe`); this agrees with UTF-16 code-unit order on the Basic
Multilingual Plane, which covers every string the application produces.
`Array.prototype.sort` is required to be stable by the language specification,
and the output of a stable sort for a consistent comparator is unique, so it
is embedded as a stable insertion sort (`jsSortBy`).
-/

namespace Ibbla

/-! ### Association-list primitives for JS objects -/

def getKey {α : Type} : List (String × α) → String → Option α
  | [], _ => none
  | kv :: rest, k => if kv.1 == k then some kv.2 else getKey rest k

/-- JS property assignment on an object: replace the value at an existing key
in place, otherwise append the new key at the end (JS insertion order). -/
def setKey {α : Type} : List (String × α) → String → α → List (String × α)
  | [], k, v => [(k, v)]
  | kv :: rest, k, v => if kv.1 == k then (k, v) :: rest else kv :: setKey rest k v

/-- JS `delete obj[k]`: the resulting object has no key `k`. -/
def delKey {α : Type} (m : List (String × α)) (k : String) : List (String × α) :=
  m.filter (fun kv => !(kv.1 == k))

/-- Update the value stored at key `k` (in-place mutation of a nested JS object). -/
def updKey {α : Type} (m : List (String × α)) (k : String) (f : α → α) :
    List (String × α) :=
  m.map (fun kv => if kv.1 == k then (kv.1, f kv.2) else kv)

/-! ### The dynamic JS value model -/

inductive JSValue where
  | null : JSValue
  | undef : JSValue
  | bool : Bool → JSValue
  | num : Int → JSValue
  | str : String → JSValue
  | arr : List JSValue → List (String × JSValue) → JSValue
  | obj : List (String × JSValue) → JSValue

/-- JS truthiness. -/
def truthy : JSValue → Bool
  | .null => false
  | .undef => false
  | .bool b => b
  | .num n => n != 0
  | .str s => !s.isEmpty
  | .arr _ _ => true
  | .obj _ => true

/-- `typeof v === "object"` (note `typeof null === "object"` in JS). -/
def isObjType : JSValue → Bool
  | .null => true
  | .arr _ _ => true
  | .obj _ => true
  | _ => false

/-- Property read on a value that is an object or an array; primitives box to
objects without these properties (`undefined`), modelled as `none`. -/
def jsGetProp : JSValue → String → Option JSValue
  | .arr _ props, k => getKey props k
  | .obj props, k => getKey props k
  | _, _ => none

/-- Property write on an object or array; identity elsewhere (unreachable in
the code paths embedded here, which throw before writing to a primitive). -/
def jsSetProp : JSValue → String → JSValue → JSValue
  | .arr es props, k, v => .arr es (setKey props k v)
  | .obj props, k, v => .obj (setKey props k v)
  | s, _, _ => s

def isArrayOpt : Option JSValue → Bool
  | some (.arr _ _) => true
  | _ => false

def truthyOpt : Option JSValue → Bool
  | some v => truthy v
  | none => false

def isObjTypeOpt : Option JSValue → Bool
  | some v => isObjType v
  | none => false

/-! ### `DEFAULT_CLASSES` and `ensureStateShape` (App.jsx lines 57-88) -/

def mkClase (id nombre rango : String) : JSValue :=
  .obj [("id", .str id), ("nombre", .str nombre), ("rango", .str rango),
        ("docente", .str ""), ("alumnos", .arr [] [])]

def defaultClasesList : List JSValue :=
  [mkClase "logos" "Logos" "18–24 años",
   mkClase "smart" "Smart Class" "25–39 años",
   mkClase "moriah" "Moriah" "40–55 años",
   mkClase "horeb" "Horeb" "56–65 años",
   mkClase "sabiduria" "Sabiduría" "+66 años"]

def defaultClases : JSValue := .arr defaultClasesList []

/-- The `base` document built at the top of `ensureStateShape`; `now` stands
for `new Date().toISOString()`. -/
def baseDoc (now : String) : JSValue :=
  .obj [("version", .num 1), ("updatedAt", .str now),
        ("clases", defaultClases), ("asistencias", .obj [])]

/-- One step of `s.clases.forEach((c) => { if (!Array.isArray(c.alumnos))
c.alumnos = []; })`.  Reading `c.alumnos` throws on `null`/`undefined`;
assigning to a primitive throws in strict mode (ES module). -/
def fixAlumnos : JSValue → Except String JSValue
  | .null => .error "TypeError: Cannot read properties of null"
  | .undef => .error "TypeError: Cannot read properties of undefined"
  | .bool _ => .error "TypeError: Cannot create property on boolean"
  | .num _ => .error "TypeError: Cannot create property on number"
  | .str _ => .error "TypeError: Cannot create property on string"
  | c =>
    match jsGetProp c "alumnos" with
    | some (.arr _ _) => .ok c
    | _ => .ok (jsSetProp c "alumnos" (.arr [] []))

/-- Error-propagating map, embedding a `forEach` whose body may throw: the
first throw aborts the whole traversal. -/
def mapExcept {α β : Type} (f : α → Except String β) : List α → Except String (List β)
  | [] => .ok []
  | x :: xs =>
    match f x with
    | .error e => .error e
    | .ok y =>
      match mapExcept f xs with
      | .error e => .error e
      | .ok ys => .ok (y :: ys)

/-- `if (!Array.isArray(s.clases)) s.clases = base.clases;` -/
def fixClasesField (s : JSValue) : JSValue :=
  if isArrayOpt (jsGetProp s "clases") then s else jsSetProp s "clases" defaultClases

/-- `if (!s.asistencias || typeof s.asistencias !== "object") s.asistencias = {};` -/
def fixAsistenciasField (s : JSValue) : JSValue :=
  if truthyOpt (jsGetProp s "asistencias") && isObjTypeOpt (jsGetProp s "asistencias")
  then s else jsSetProp s "asistencias" (.obj [])

/-- `if (!s.version) s.version = 1;` -/
def fixVersionField (s : JSValue) : JSValue :=
  if truthyOpt (jsGetProp s "version") then s else jsSetProp s "version" (.num 1)

/-- `if (!s.updatedAt) s.updatedAt = new Date().toISOString();` -/
def fixUpdatedAtField (now : String) (s : JSValue) : JSValue :=
  if truthyOpt (jsGetProp s "updatedAt") then s else jsSetProp s "updatedAt" (.str now)

/-- The roster-normalizing loop over `s.clases` (which is an array at this
point of the code; the fallback branch is unreachable). -/
def fixClasesElems (s : JSValue) : Except String JSValue :=
  match jsGetProp s "clases" with
  | some (.arr elems props) =>
    match mapExcept fixAlumnos elems with
    | .error e => .error e
    | .ok elems2 => .ok (jsSetProp s "clases" (.arr elems2 props))
  | _ => .ok s

/-- `ensureStateShape` (App.jsx lines 76-88); `now` stands for the value of
`new Date().toISOString()` during the call. -/
def ensureStateShape (s : JSValue) (now : String) : Except String JSValue :=
  if !truthy s || !isObjType s then .ok (baseDoc now)
  else
    fixClasesElems
      (fixUpdatedAtField now (fixVersionField (fixAsistenciasField (fixClasesField s))))

/-- Well-formedness of a normalized document, as guaranteed by the code:
`clases` is an array whose every element carries an array `alumnos`,
`asistencias` is a truthy object, `version` is truthy, `updatedAt` is set. -/
def wellFormedDoc (d : JSValue) : Bool :=
  truthy d && isObjType d &&
  (match jsGetProp d "clases" with
   | some (.arr elems _) =>
     elems.all (fun c => isArrayOpt (jsGetProp c "alumnos"))
   | _ => false) &&
  (match jsGetProp d "asistencias" with
   | some v => truthy v && isObjType v
   | none => false) &&
  truthyOpt (jsGetProp d "version") &&
  (jsGetProp d "updatedAt").isSome

/-! ### `normalizePhone` (App.jsx line 74) -/

/-- `(t || "").replace(/[^+\d]/g, "")`: drop every character that is neither a
decimal digit nor a plus sign. -/
def normalizePhone (t : String) : String :=
  String.mk (t.data.filter (fun c => c == '+' || c.isDigit))

/-- Modelled from the spec words for claim C4: keep every digit, but keep a
plus sign only when it is the leading character of the result. -/
def specNormalizePhone (t : String) : String :=
  match t.data.filter (fun c => c == '+' || c.isDigit) with
  | '+' :: rest => String.mk ('+' :: rest.filter Char.isDigit)
  | l => String.mk (l.filter Char.isDigit)

/-! ### JS string comparison and stable sort -/

/-- Lexicographic comparison of code points, embedding JS string `<`/`>`,
default `sort`, and `localeCompare` on the ASCII strings used by the app. -/
def charListLe : List Char → List Char → Bool
  | [], _ => true
  | _ :: _, [] => false
  | a :: as, b :: bs =>
    if a.toNat < b.toNat then true
    else if b.toNat < a.toNat then false
    else charListLe as bs

def strLe (a b : String) : Bool := charListLe a.data b.data

/-- Insert `x` into `l` before the first element `y` with `le x y` false
turned around: `x` goes in front of the first `y` it may precede.  Equal
elements already in `l` stay in front of `x`, matching a stable sort. -/
def insertLe {α : Type} (le : α → α → Bool) (x : α) : List α → List α
  | [] => [x]
  | y :: ys => if le x y then x :: y :: ys else y :: insertLe le x ys

/-- Stable insertion sort: the unique output of the (specified-stable) JS
`Array.prototype.sort` for a consistent comparator `le` = "compare ≤ 0". -/
def jsSortBy {α : Type} (le : α → α → Bool) (l : List α) : List α :=
  l.foldr (insertLe le) []

/-! ### The typed document model -/

structure Registro where
  presente : Option Bool
  nota : Option String
deriving DecidableEq, Repr

/-- `asistencias[fecha][classId][alumnoId] : Registro` as nested JS objects. -/
abbrev Regs := List (String × Registro)
abbrev PorClase := List (String × Regs)
abbrev Asistencias := List (String × PorClase)

structure Alumno where
  id : String
  nombre : String
  telefono : Option String
deriving DecidableEq, Repr

structure Clase where
  id : String
  nombre : String
  rango : String
  docente : String
  alumnos : List Alumno
deriving DecidableEq, Repr

structure Doc where
  version : Int
  updatedAt : String
  clases : List Clase
  asistencias : Asistencias
deriving DecidableEq, Repr

/-- `reg?.presente` truthiness for a typed attendance record. -/
def regPresente (r : Registro) : Bool := r.presente == some true

/-- Chained optional lookup `asistencias[f]?.[classId]?.[alumnoId]`. -/
def lookupReg (asis : Asistencias) (fecha classId alumnoId : String) : Option Registro :=
  (getKey asis fecha).bind fun pc => (getKey pc classId).bind fun rs => getKey rs alumnoId

/-- In-place update of the first class whose `id` matches (`clases.find` then
mutation through the reference). -/
def updFirstClase (cs : List Clase) (classId : String) (f : Clase → Clase) : List Clase :=
  match cs with
  | [] => []
  | c :: rest => if c.id == classId then f c :: rest else c :: updFirstClase rest classId f

/-! ### Mutation operations (App.jsx `Configuracion`, lines 536-580) -/

/-- `changeDocente` (App.jsx lines 536-544): finds the class, sets `docente`
when found, and refreshes `updatedAt` unconditionally. -/
def changeDocente (doc : Doc) (classId docente now : String) : Doc :=
  { doc with
    clases := updFirstClase doc.clases classId (fun c => { c with docente := docente }),
    updatedAt := now }

/-- The per-date body of `removeAlumno`'s cascade loop:
`if (p.asistencias[fecha]?.[classId]?.[alumnoId]) delete ...`. -/
def removeAlumnoFecha (pc : PorClase) (classId alumnoId : String) : PorClase :=
  match getKey pc classId with
  | none => pc
  | some rs =>
    match getKey rs alumnoId with
    | none => pc
    | some _ => updKey pc classId (fun r => delKey r alumnoId)

/-- `removeAlumno` (App.jsx lines 555-569): no-op when the class is not found
(the clone is value-equal to the input); otherwise filters the roster,
cascades deletion over every date, and refreshes `updatedAt`. -/
def removeAlumno (doc : Doc) (classId alumnoId now : String) : Doc :=
  match doc.clases.find? (fun c => c.id == classId) with
  | none => doc
  | some _ =>
    { doc with
      clases := updFirstClase doc.clases classId
        (fun c => { c with alumnos := c.alumnos.filter (fun a => !(a.id == alumnoId)) }),
      asistencias := doc.asistencias.map
        (fun e => (e.1, removeAlumnoFecha e.2 classId alumnoId)),
      updatedAt := now }

/-! ### Statistics by date (App.jsx `StatsByDate`, lines 327-343) -/

/-- Inner loops of the by-date series: count records with truthy `presente`. -/
def countRegs (rs : Regs) (acc : Nat) : Nat :=
  rs.foldl (fun a e => if regPresente e.2 then a + 1 else a) acc

def countPresentes (pc : PorClase) : Nat :=
  pc.foldl (fun acc e => countRegs e.2 acc) 0

/-- The `serie` of `StatsByDate`: one `(fecha, total)` entry per date key,
sorted ascending by `localeCompare`. -/
def serieByDate (asis : Asistencias) : List (String × Nat) :=
  jsSortBy (fun a b => strLe a.1 b.1) (asis.map (fun e => (e.1, countPresentes e.2)))

/-- Modelled from the spec words for claim C8: the number of records of that
date, across all classes and persons, whose `present` flag is true. -/
def specPresentCount (pc : PorClase) : Nat :=
  ((pc.map Prod.snd).flatten.filter (fun e => regPresente e.2)).length

/-! ### Statistics by person (App.jsx `StatsByPerson`, lines 430-475) -/

structure PersonaInfo where
  alumnoId : String
  nombre : String
  telefono : Option String
  clase : String
  docente : String
  classId : String
deriving DecidableEq, Repr

structure Persona where
  alumnoId : String
  nombre : String
  telefono : Option String
  clase : String
  docente : String
  classId : String
  presentes : Nat
  semanas : Nat
  porcentaje : Nat
  lastAttendance : String
  currentAbsentStreak : Nat
  abandono : Bool
deriving DecidableEq, Repr

def mkInfo (c : Clase) (a : Alumno) : PersonaInfo :=
  { alumnoId := a.id, nombre := a.nombre, telefono := a.telefono,
    clase := c.nombre, docente := c.docente, classId := c.id }

/-- `idx[a.id] = {...}` over all classes and rosters: a JS object keyed by the
person id alone, so a later person with the same id overwrites an earlier one
(also across classes). -/
def buildIdx (clases : List Clase) : List (String × PersonaInfo) :=
  clases.foldl (fun idx c => c.alumnos.foldl (fun idx2 a => setKey idx2 a.id (mkInfo c a)) idx) []

/-- Repeated JS property assignment of a list of key-value pairs. -/
def insertAll {α : Type} (idx ps : List (String × α)) : List (String × α) :=
  ps.foldl (fun m p => setKey m p.1 p.2) idx

/-- Accumulator of the backward walk over the sorted dates; `lastAttendance`
uses `""` for JS `null` (the guard in the source is truthiness). -/
structure StreakAcc where
  presentes : Nat
  lastAttendance : String
  currentAbsentStreak : Nat
  running : Nat
deriving Repr

/-- One iteration of the walk (App.jsx lines 448-460), for date `f`. -/
def streakStep (asis : Asistencias) (classId alumnoId : String)
    (acc : StreakAcc) (f : String) : StreakAcc :=
  match lookupReg asis f classId alumnoId with
  | some r =>
    if regPresente r then
      { presentes := acc.presentes + 1,
        lastAttendance := if acc.lastAttendance.isEmpty then f else acc.lastAttendance,
        currentAbsentStreak := if acc.running == 0 then 0 else acc.currentAbsentStreak,
        running := 0 }
    else
      { acc with
        running := acc.running + 1,
        currentAbsentStreak :=
          if acc.lastAttendance.isEmpty then acc.running + 1 else acc.currentAbsentStreak }
  | none =>
    { acc with
      running := acc.running + 1,
      currentAbsentStreak :=
        if acc.lastAttendance.isEmpty then acc.running + 1 else acc.currentAbsentStreak }

/-- Exact round-half-up of `100 * presentes / weeksTotal` (the JS
`Math.round((presentes / weeksTotal) * 100)` evaluated without floating-point
error; doubles could differ only at half-way boundaries). -/
def roundPct (presentes weeksTotal : Nat) : Nat :=
  (200 * presentes + weeksTotal) / (2 * weeksTotal)

/-- Per-person record of `StatsByPerson` (App.jsx lines 442-466). -/
def mkStats (p : PersonaInfo) (fechas : List String) (asis : Asistencias) : Persona :=
  let acc := fechas.reverse.foldl (streakStep asis p.classId p.alumnoId)
    { presentes := 0, lastAttendance := "", currentAbsentStreak := 0, running := 0 }
  let weeksTotal := fechas.length
  let porcentaje := if weeksTotal != 0 then roundPct acc.presentes weeksTotal else 0
  { alumnoId := p.alumnoId, nombre := p.nombre, telefono := p.telefono,
    clase := p.clase, docente := p.docente, classId := p.classId,
    presentes := acc.presentes, semanas := weeksTotal, porcentaje := porcentaje,
    lastAttendance := acc.lastAttendance,
    currentAbsentStreak := acc.currentAbsentStreak,
    abandono := decide (3 ≤ acc.currentAbsentStreak) }

/-- The final comparator of `StatsByPerson` as "compare ≤ 0": dropout alerts
first, then longer current absence streaks, then name ascending. -/
def personaLe (a b : Persona) : Bool :=
  (a.abandono && !b.abandono) ||
  ((a.abandono == b.abandono) &&
    (decide (b.currentAbsentStreak < a.currentAbsentStreak) ||
      ((b.currentAbsentStreak == a.currentAbsentStreak) && strLe a.nombre b.nombre)))

/-- The full `personas` derivation of `StatsByPerson`: index by person id,
walk the sorted dates per person, and sort with the alert comparator. -/
def personasOf (state : Doc) : List Persona :=
  let fechas := jsSortBy strLe (state.asistencias.map Prod.fst)
  jsSortBy personaLe ((buildIdx state.clases).map (fun e => mkStats e.2 fechas state.asistencias))

/-! ### Startup reconciliation (App.jsx lines 728-734) -/

/-- `(remote.updatedAt || 0) > (local.updatedAt || 0)`: for an empty (falsy)
`updatedAt` the `|| 0` fallback makes JS compare via `ToNumber`, where an ISO
timestamp string parses to `NaN` and every comparison is false. -/
def jsTimestampGt (a b : String) : Bool :=
  if a.isEmpty || b.isEmpty then false else !(strLe a b)

/-- The reconciliation choice `newer = remote.updatedAt > local.updatedAt ?
remote : local` (App.jsx line 732). -/
def reconcileNewer (localDoc remoteDoc : Doc) : Doc :=
  if jsTimestampGt remoteDoc.updatedAt localDoc.updatedAt then remoteDoc else localDoc

/-- Values that are JS objects in the strict sense (object or array): property
assignment is possible on exactly these. -/
def isObjecty : JSValue → Bool
  | .arr _ _ => true
  | .obj _ => true
  | _ => false

/-- Precondition under which `ensureStateShape` cannot throw: when the input
carries a `clases` array, all of its elements are objects or arrays. -/
def clasesElemsOk (s : JSValue) : Bool :=
  match jsGetProp s "clases" with
  | some (.arr elems _) => elems.all isObjecty
  | _ => true

/-- The invariant established by a successful run of `ensureStateShape` with
timestamp `now`, strong enough to make a second run the identity. -/
def StrongWF (d : JSValue) (now : String) : Prop :=
  isObjecty d = true ∧
  (∃ elems props, jsGetProp d "clases" = some (.arr elems props) ∧
    ∀ c ∈ elems, isObjecty c = true ∧ ∃ es ps, jsGetProp c "alumnos" = some (.arr es ps)) ∧
  (∃ v, jsGetProp d "asistencias" = some v ∧ truthy v = true ∧ isObjType v = true) ∧
  (∃ v, jsGetProp d "version" = some v ∧ truthy v = true) ∧
  (∃ v, jsGetProp d "updatedAt" = some v ∧ (truthy v = true ∨ v = .str now))

/-! ### Concrete inputs used by counterexamples and witnesses -/

def regOf (b : Bool) : Registro := { presente := some b, nota := none }

/-- One class, one person; present on the two oldest of five recorded dates,
absent on the three most recent ones. -/
def docStreakBug : Doc :=
  { version := 1, updatedAt := "2025-02-02T00:00:00Z",
    clases := [{ id := "c1", nombre := "Logos", rango := "18–24 años", docente := "",
                 alumnos := [{ id := "p1", nombre := "Ana", telefono := none }] }],
    asistencias :=
      [("2025-01-05", [("c1", [("p1", regOf true)])]),
       ("2025-01-12", [("c1", [("p1", regOf true)])]),
       ("2025-01-19", []),
       ("2025-01-26", []),
       ("2025-02-02", [])] }

/-- Two classes whose rosters share the person id `"p"`. -/
def docSharedIds : Doc :=
  { version := 1, updatedAt := "2025-01-01T00:00:00Z",
    clases := [{ id := "c1", nombre := "Logos", rango := "18–24 años", docente := "",
                 alumnos := [{ id := "p", nombre := "Ana", telefono := none }] },
               { id := "c2", nombre := "Moriah", rango := "40–55 años", docente := "",
                 alumnos := [{ id := "p", nombre := "Bea", telefono := none }] }],
    asistencias := [] }

/-- A document with no classes at all (so any `classId` misses). -/
def docNoClasses : Doc :=
  { version := 1, updatedAt := "2025-01-01T00:00:00Z", clases := [], asistencias := [] }

/-- One class, one person, one attendance record for that person. -/
def docOnePresence : Doc :=
  { version := 1, updatedAt := "2025-01-05T00:00:00Z",
    clases := [{ id := "c1", nombre := "Logos", rango := "18–24 años", docente := "",
                 alumnos := [{ id := "a1", nombre := "Ana", telefono := none }] }],
    asistencias := [("2025-01-05", [("c1", [("a1", regOf true)])])] }

def docLocalOld : Doc :=
  { version := 1, updatedAt := "2025-01-01T00:00:00Z", clases := [], asistencias := [] }

def docRemoteNew : Doc :=
  { version := 1, updatedAt := "2025-01-02T00:00:00Z", clases := [],
    asistencias := [("2025-01-01", [])] }

def docRemoteTie : Doc :=
  { version := 1, updatedAt := "2025-01-01T00:00:00Z", clases := [],
    asistencias := [("2025-01-01", [])] }

end Ibbla

namespace Ibbla

/-! ### Association-list lemmas -/

theorem getKey_setKey_self {α : Type} (m : List (String × α)) (k : String) (v : α) :
    getKey (setKey m k v) k = some v := by
  induction m with
  | nil => simp [getKey, setKey]
  | cons kv rest ih =>
    obtain ⟨k1, v1⟩ := kv
    by_cases h : k1 = k
    · simp [setKey, getKey, h]
    · simp [setKey, getKey, h, ih]

theorem getKey_setKey_ne {α : Type} (m : List (String × α)) (k k' : String) (v : α)
    (h : k' ≠ k) : getKey (setKey m k v) k' = getKey m k' := by
  induction m with
  | nil =>
    simp [getKey, setKey]
    intro hk
    exact absurd hk.symm h
  | cons kv rest ih =>
    obtain ⟨k1, v1⟩ := kv
    by_cases hk : k1 = k
    · subst hk
      have : ¬ (k1 == k') = true := by
        simp only [beq_iff_eq]
        exact fun hh => h (hh.symm)
      simp [setKey, getKey, this]
    · simp [setKey, getKey, hk, ih]

theorem setKey_eq_of_getKey {α : Type} (m : List (String × α)) (k : String) (v : α)
    (h : getKey m k = some v) : setKey m k v = m := by
  induction m with
  | nil => simp [getKey] at h
  | cons kv rest ih =>
    obtain ⟨k1, v1⟩ := kv
    by_cases hk : k1 = k
    · subst hk
      simp [getKey] at h
      simp [setKey, h]
    · simp [getKey, hk] at h
      simp [setKey, hk, ih h]

theorem getKey_delKey_self {α : Type} (m : List (String × α)) (k : String) :
    getKey (delKey m k) k = none := by
  induction m with
  | nil => simp [delKey, getKey]
  | cons kv rest ih =>
    obtain ⟨k1, v1⟩ := kv
    by_cases hk : k1 = k
    · simpa [delKey, hk] using ih
    · simpa [delKey, getKey, hk] using ih

theorem getKey_updKey_self {α : Type} (m : List (String × α)) (k : String) (f : α → α) :
    getKey (updKey m k f) k = (getKey m k).map f := by
  induction m with
  | nil => simp [updKey, getKey]
  | cons kv rest ih =>
    obtain ⟨k1, v1⟩ := kv
    by_cases hk : k1 = k
    · simp [updKey, getKey, hk]
    · simp only [updKey, List.map_cons]
      simp only [getKey, hk, if_false, beq_iff_eq]
      simpa [updKey] using ih

theorem getKey_map_value {α β : Type} (m : List (String × α)) (g : α → β) (k : String) :
    getKey (m.map (fun e => (e.1, g e.2))) k = (getKey m k).map g := by
  induction m with
  | nil => simp [getKey]
  | cons kv rest ih =>
    obtain ⟨k1, v1⟩ := kv
    by_cases hk : k1 = k
    · simp [getKey, hk]
    · simp [getKey, hk, ih]

theorem keys_setKey {α : Type} (m : List (String × α)) (k : String) (v : α) :
    (setKey m k v).map Prod.fst =
      if k ∈ m.map Prod.fst then m.map Prod.fst else m.map Prod.fst ++ [k] := by
  induction m with
  | nil => simp [setKey]
  | cons kv rest ih =>
    obtain ⟨k1, v1⟩ := kv
    by_cases hk : k1 = k
    · subst hk
      simp [setKey]
    · have hne : ¬ k = k1 := fun h => hk h.symm
      by_cases hmem : k ∈ rest.map Prod.fst
      · simp [setKey, hk, ih, hne, hmem]
      · simp [setKey, hk, ih, hne, hmem]

theorem mem_keys_setKey {α : Type} (m : List (String × α)) (k k' : String) (v : α) :
    k' ∈ (setKey m k v).map Prod.fst ↔ k' ∈ m.map Prod.fst ∨ k' = k := by
  rw [keys_setKey]
  split_ifs with hm
  · constructor
    · exact Or.inl
    · rintro (h | rfl)
      · exact h
      · exact hm
  · simp

theorem nodup_keys_setKey {α : Type} (m : List (String × α)) (k : String) (v : α)
    (h : (m.map Prod.fst).Nodup) : ((setKey m k v).map Prod.fst).Nodup := by
  rw [keys_setKey]
  split_ifs with hmem
  · exact h
  · simp [List.nodup_append, h, hmem]

theorem forall_mem_setKey {α : Type} {P : String × α → Prop} :
    ∀ (m : List (String × α)) (k : String) (v : α),
      (∀ kv ∈ m, P kv) → P (k, v) → ∀ kv ∈ setKey m k v, P kv
  | [], k, v, _, hv => by simpa [setKey]
  | (k1, v1) :: rest, k, v, hm, hv => by
    by_cases hk : k1 = k
    · subst hk
      simp only [setKey, beq_self_eq_true, if_true]
      intro kv hkv
      rcases List.mem_cons.mp hkv with rfl | h1
      · exact hv
      · exact hm _ (List.mem_cons_of_mem _ h1)
    · have : ¬ (k1 == k) = true := by simpa using hk
      simp only [setKey, this, if_false]
      intro kv hkv
      rcases List.mem_cons.mp hkv with rfl | h1
      · exact hm _ (List.mem_cons_self _ _)
      · exact forall_mem_setKey rest k v
          (fun e he => hm e (List.mem_cons_of_mem _ he)) hv _ h1

/-! ### JSValue property lemmas -/

theorem objy_truthy {s : JSValue} (h : isObjecty s = true) : truthy s = true := by
  cases s <;> simp_all [isObjecty, truthy]

theorem objy_isObjType {s : JSValue} (h : isObjecty s = true) : isObjType s = true := by
  cases s <;> simp_all [isObjecty, isObjType]

theorem objy_of_truthy_objType {s : JSValue} (h1 : truthy s = true)
    (h2 : isObjType s = true) : isObjecty s = true := by
  cases s <;> simp_all [isObjecty, truthy, isObjType]

theorem jsSetProp_objy {s : JSValue} (k : String) (v : JSValue)
    (h : isObjecty s = true) : isObjecty (jsSetProp s k v) = true := by
  cases s <;> simp_all [isObjecty, jsSetProp]

theorem jsGetProp_jsSetProp_self {s : JSValue} (k : String) (v : JSValue)
    (h : isObjecty s = true) : jsGetProp (jsSetProp s k v) k = some v := by
  cases s <;> simp_all [isObjecty, jsSetProp, jsGetProp, getKey_setKey_self]

theorem jsGetProp_jsSetProp_ne (s : JSValue) (k k' : String) (v : JSValue) (h : k' ≠ k) :
    jsGetProp (jsSetProp s k v) k' = jsGetProp s k' := by
  cases s <;> simp [jsSetProp, jsGetProp, getKey_setKey_ne _ _ _ _ h]

theorem jsSetProp_eq_of_get {s : JSValue} {k : String} {v : JSValue}
    (h : jsGetProp s k = some v) : jsSetProp s k v = s := by
  cases s with
  | arr es ps => simp only [jsGetProp] at h; simp [jsSetProp, setKey_eq_of_getKey _ _ _ h]
  | obj ps => simp only [jsGetProp] at h; simp [jsSetProp, setKey_eq_of_getKey _ _ _ h]
  | _ => simp [jsGetProp] at h

theorem isArrayOpt_iff {o : Option JSValue} :
    isArrayOpt o = true ↔ ∃ es ps, o = some (.arr es ps) := by
  cases o with
  | none => simp [isArrayOpt]
  | some v => cases v <;> simp [isArrayOpt]

theorem truthyOpt_iff {o : Option JSValue} :
    truthyOpt o = true ↔ ∃ v, o = some v ∧ truthy v = true := by
  cases o <;> simp [truthyOpt]

theorem isObjTypeOpt_iff {o : Option JSValue} :
    isObjTypeOpt o = true ↔ ∃ v, o = some v ∧ isObjType v = true := by
  cases o <;> simp [isObjTypeOpt]

/-! ### `fixAlumnos` and `mapExcept` lemmas -/

theorem fixAlumnos_ok_of {c : JSValue} (h : isObjecty c = true) :
    ∃ c2, fixAlumnos c = .ok c2 := by
  cases c with
  | arr es ps =>
    simp only [fixAlumnos]
    rcases hg : jsGetProp (.arr es ps) "alumnos" with _ | v
    · exact ⟨_, rfl⟩
    · cases v <;> exact ⟨_, rfl⟩
  | obj ps =>
    simp only [fixAlumnos]
    rcases hg : jsGetProp (.obj ps) "alumnos" with _ | v
    · exact ⟨_, rfl⟩
    · cases v <;> exact ⟨_, rfl⟩
  | _ => simp_all [isObjecty]

theorem fixAlumnos_post {c c2 : JSValue} (h : fixAlumnos c = .ok c2) :
    isObjecty c2 = true ∧ ∃ es ps, jsGetProp c2 "alumnos" = some (.arr es ps) := by
  have hobjy : isObjecty c = true := by
    cases c <;> first | rfl | simp [fixAlumnos] at h
  have h2 : (match jsGetProp c "alumnos" with
      | some (.arr _ _) => (Except.ok c : Except String JSValue)
      | _ => Except.ok (jsSetProp c "alumnos" (.arr [] []))) = Except.ok c2 := by
    cases c
    case arr => simpa [fixAlumnos] using h
    case obj => simpa [fixAlumnos] using h
    all_goals simp [fixAlumnos] at h
  rcases hg : jsGetProp c "alumnos" with _ | v
  · rw [hg] at h2
    simp only [Except.ok.injEq] at h2
    subst h2
    exact ⟨jsSetProp_objy _ _ hobjy, [], [], jsGetProp_jsSetProp_self _ _ hobjy⟩
  · cases v <;> rw [hg] at h2 <;> simp only [Except.ok.injEq] at h2 <;> subst h2
    case arr es ps => exact ⟨hobjy, es, ps, hg⟩
    all_goals
      exact ⟨jsSetProp_objy _ _ hobjy, [], [], jsGetProp_jsSetProp_self _ _ hobjy⟩

theorem fixAlumnos_id {c : JSValue} {es : List JSValue} {ps : List (String × JSValue)}
    (hobjy : isObjecty c = true) (h : jsGetProp c "alumnos" = some (.arr es ps)) :
    fixAlumnos c = .ok c := by
  cases c with
  | arr es2 ps2 => simp [fixAlumnos, h]
  | obj ps2 => simp [fixAlumnos, h]
  | _ => simp [isObjecty] at hobjy

theorem mapExcept_ok_of {α β : Type} {f : α → Except String β} {l : List α}
    (h : ∀ x ∈ l, ∃ y, f x = .ok y) : ∃ l2, mapExcept f l = .ok l2 := by
  induction l with
  | nil => exact ⟨[], rfl⟩
  | cons x xs ih =>
    obtain ⟨y, hy⟩ := h x (List.mem_cons_self _ _)
    obtain ⟨l2, hl2⟩ := ih (fun e he => h e (List.mem_cons_of_mem _ he))
    exact ⟨y :: l2, by simp [mapExcept, hy, hl2]⟩

theorem mapExcept_post {α β : Type} {f : α → Except String β} {P : β → Prop}
    {l : List α} {l2 : List β} (h : mapExcept f l = .ok l2)
    (hf : ∀ x ∈ l, ∀ y, f x = .ok y → P y) : ∀ y ∈ l2, P y := by
  induction l generalizing l2 with
  | nil =>
    simp only [mapExcept, Except.ok.injEq] at h
    subst h
    simp
  | cons x xs ih =>
    simp only [mapExcept] at h
    rcases hx : f x with e | y
    · rw [hx] at h; exact absurd h (by simp)
    · rw [hx] at h
      rcases hxs : mapExcept f xs with e | ys
      · rw [hxs] at h; exact absurd h (by simp)
      · rw [hxs] at h
        simp only [Except.ok.injEq] at h
        subst h
        intro z hz
        rcases List.mem_cons.mp hz with rfl | hmem
        · exact hf x (List.mem_cons_self _ _) z hx
        · exact ih hxs (fun e he => hf e (List.mem_cons_of_mem _ he)) z hmem

theorem mapExcept_id {α : Type} {f : α → Except String α} {l : List α}
    (h : ∀ x ∈ l, f x = .ok x) : mapExcept f l = .ok l := by
  induction l with
  | nil => rfl
  | cons x xs ih =>
    simp [mapExcept, h x (List.mem_cons_self _ _),
      ih (fun e he => h e (List.mem_cons_of_mem _ he))]

/-! ### Field-normalization lemmas for `ensureStateShape` -/

theorem defaultClasesList_elems :
    ∀ c ∈ defaultClasesList,
      isObjecty c = true ∧ jsGetProp c "alumnos" = some (.arr [] []) := by
  intro c hc
  simp only [defaultClasesList, mkClase, List.mem_cons, List.not_mem_nil, or_false] at hc
  rcases hc with rfl | rfl | rfl | rfl | rfl <;> exact ⟨rfl, rfl⟩

theorem fixClasesField_spec (s : JSValue) (h : isObjecty s = true) :
    isObjecty (fixClasesField s) = true ∧
    (∃ elems props, jsGetProp (fixClasesField s) "clases" = some (.arr elems props) ∧
      (clasesElemsOk s = true → ∀ c ∈ elems, isObjecty c = true)) ∧
    ∀ k, k ≠ "clases" → jsGetProp (fixClasesField s) k = jsGetProp s k := by
  unfold fixClasesField
  split_ifs with hc
  · obtain ⟨es, ps, hg⟩ := isArrayOpt_iff.mp hc
    refine ⟨h, ⟨es, ps, hg, fun hok c hmem => ?_⟩, fun k _ => rfl⟩
    unfold clasesElemsOk at hok
    rw [hg] at hok
    exact List.all_eq_true.mp hok c hmem
  · refine ⟨jsSetProp_objy _ _ h,
      ⟨defaultClasesList, [], jsGetProp_jsSetProp_self _ _ h,
        fun _ c hmem => (defaultClasesList_elems c hmem).1⟩,
      fun k hk => jsGetProp_jsSetProp_ne _ _ _ _ hk⟩

theorem fixAsistenciasField_spec (s : JSValue) (h : isObjecty s = true) :
    isObjecty (fixAsistenciasField s) = true ∧
    (∃ v, jsGetProp (fixAsistenciasField s) "asistencias" = some v ∧
      truthy v = true ∧ isObjType v = true) ∧
    ∀ k, k ≠ "asistencias" → jsGetProp (fixAsistenciasField s) k = jsGetProp s k := by
  unfold fixAsistenciasField
  split_ifs with hc
  · rw [Bool.and_eq_true] at hc
    obtain ⟨v, hv, htv⟩ := truthyOpt_iff.mp hc.1
    obtain ⟨v2, hv2, hov⟩ := isObjTypeOpt_iff.mp hc.2
    rw [hv] at hv2
    obtain rfl : v = v2 := by injection hv2
    exact ⟨h, ⟨v, hv, htv, hov⟩, fun k _ => rfl⟩
  · exact ⟨jsSetProp_objy _ _ h,
      ⟨.obj [], jsGetProp_jsSetProp_self _ _ h, rfl, rfl⟩,
      fun k hk => jsGetProp_jsSetProp_ne _ _ _ _ hk⟩

theorem fixVersionField_spec (s : JSValue) (h : isObjecty s = true) :
    isObjecty (fixVersionField s) = true ∧
    (∃ v, jsGetProp (fixVersionField s) "version" = some v ∧ truthy v = true) ∧
    ∀ k, k ≠ "version" → jsGetProp (fixVersionField s) k = jsGetProp s k := by
  unfold fixVersionField
  split_ifs with hc
  · obtain ⟨v, hv, htv⟩ := truthyOpt_iff.mp hc
    exact ⟨h, ⟨v, hv, htv⟩, fun k _ => rfl⟩
  · exact ⟨jsSetProp_objy _ _ h,
      ⟨.num 1, jsGetProp_jsSetProp_self _ _ h, rfl⟩,
      fun k hk => jsGetProp_jsSetProp_ne _ _ _ _ hk⟩

theorem fixUpdatedAtField_spec (now : String) (s : JSValue) (h : isObjecty s = true) :
    isObjecty (fixUpdatedAtField now s) = true ∧
    (∃ v, jsGetProp (fixUpdatedAtField now s) "updatedAt" = some v ∧
      (truthy v = true ∨ v = .str now)) ∧
    ∀ k, k ≠ "updatedAt" → jsGetProp (fixUpdatedAtField now s) k = jsGetProp s k := by
  unfold fixUpdatedAtField
  split_ifs with hc
  · obtain ⟨v, hv, htv⟩ := truthyOpt_iff.mp hc
    exact ⟨h, ⟨v, hv, Or.inl htv⟩, fun k _ => rfl⟩
  · exact ⟨jsSetProp_objy _ _ h,
      ⟨.str now, jsGetProp_jsSetProp_self _ _ h, Or.inr rfl⟩,
      fun k hk => jsGetProp_jsSetProp_ne _ _ _ _ hk⟩

theorem baseDoc_strongWF (now : String) : StrongWF (baseDoc now) now := by
  refine ⟨rfl, ⟨defaultClasesList, [], rfl, fun c hc => ?_⟩,
    ⟨.obj [], rfl, rfl, rfl⟩, ⟨.num 1, rfl, rfl⟩, ⟨.str now, rfl, Or.inr rfl⟩⟩
  obtain ⟨h1, h2⟩ := defaultClasesList_elems c hc
  exact ⟨h1, [], [], h2⟩

theorem fixClasesElems_eq {s : JSValue} {elems : List JSValue}
    {props : List (String × JSValue)}
    (h : jsGetProp s "clases" = some (.arr elems props)) :
    fixClasesElems s =
      match mapExcept fixAlumnos elems with
      | .error e => .error e
      | .ok elems2 => .ok (jsSetProp s "clases" (.arr elems2 props)) := by
  unfold fixClasesElems
  rw [h]

theorem objy_of_guard {s : JSValue} (hg : ¬ ((!truthy s || !isObjType s) = true)) :
    isObjecty s = true := by
  cases s <;> simp_all [truthy, isObjType, isObjecty]

/-- A successful `ensureStateShape` run establishes the strong invariant. -/
theorem ensure_ok_strongWF {s d : JSValue} {now : String}
    (h : ensureStateShape s now = .ok d) : StrongWF d now := by
  unfold ensureStateShape at h
  split_ifs at h with hg
  · obtain rfl : baseDoc now = d := by injection h
    exact baseDoc_strongWF now
  · have hobjy : isObjecty s = true := objy_of_guard hg
    obtain ⟨ho1, ⟨elems, props, hcl, _⟩, _⟩ := fixClasesField_spec s hobjy
    obtain ⟨ho2, ⟨va, hva, htva, hova⟩, hpre2⟩ :=
      fixAsistenciasField_spec (fixClasesField s) ho1
    obtain ⟨ho3, ⟨vv, hvv, htvv⟩, hpre3⟩ :=
      fixVersionField_spec (fixAsistenciasField (fixClasesField s)) ho2
    obtain ⟨ho4, ⟨vu, hvu, hu⟩, hpre4⟩ :=
      fixUpdatedAtField_spec now
        (fixVersionField (fixAsistenciasField (fixClasesField s))) ho3
    have hcl4 : jsGetProp
        (fixUpdatedAtField now (fixVersionField (fixAsistenciasField (fixClasesField s))))
        "clases" = some (.arr elems props) := by
      rw [hpre4 _ (by decide), hpre3 _ (by decide), hpre2 _ (by decide)]
      exact hcl
    have hva4 : jsGetProp
        (fixUpdatedAtField now (fixVersionField (fixAsistenciasField (fixClasesField s))))
        "asistencias" = some va := by
      rw [hpre4 _ (by decide), hpre3 _ (by decide)]
      exact hva
    have hvv4 : jsGetProp
        (fixUpdatedAtField now (fixVersionField (fixAsistenciasField (fixClasesField s))))
        "version" = some vv := by
      rw [hpre4 _ (by decide)]
      exact hvv
    rw [fixClasesElems_eq hcl4] at h
    rcases hm : mapExcept fixAlumnos elems with e | elems2
    · rw [hm] at h
      exact absurd h (by simp)
    · rw [hm] at h
      obtain rfl : jsSetProp
          (fixUpdatedAtField now (fixVersionField (fixAsistenciasField (fixClasesField s))))
          "clases" (.arr elems2 props) = d := by injection h
      refine ⟨jsSetProp_objy _ _ ho4,
        ⟨elems2, props, jsGetProp_jsSetProp_self _ _ ho4,
          mapExcept_post hm (fun x _ y hy => fixAlumnos_post hy)⟩,
        ⟨va, ?_, htva, hova⟩, ⟨vv, ?_, htvv⟩, ⟨vu, ?_, hu⟩⟩
      · rw [jsGetProp_jsSetProp_ne _ _ _ _ (by decide)]
        exact hva4
      · rw [jsGetProp_jsSetProp_ne _ _ _ _ (by decide)]
        exact hvv4
      · rw [jsGetProp_jsSetProp_ne _ _ _ _ (by decide)]
        exact hvu

/-- On a document satisfying the strong invariant, `ensureStateShape` is the
identity. -/
theorem strongWF_fix {d : JSValue} {now : String} (h : StrongWF d now) :
    ensureStateShape d now = .ok d := by
  obtain ⟨hobjy, ⟨elems, props, hcl, helems⟩, ⟨va, hva, htva, hova⟩,
    ⟨vv, hvv, htvv⟩, ⟨vu, hvu, hu⟩⟩ := h
  have hguard : (!truthy d || !isObjType d) = false := by
    rw [objy_truthy hobjy, objy_isObjType hobjy]
    rfl
  have h1 : fixClasesField d = d := by
    simp [fixClasesField, hcl, isArrayOpt]
  have h2 : fixAsistenciasField d = d := by
    simp [fixAsistenciasField, hva, truthyOpt, htva, isObjTypeOpt, hova]
  have h3 : fixVersionField d = d := by
    simp [fixVersionField, hvv, truthyOpt, htvv]
  have h4 : fixUpdatedAtField now d = d := by
    unfold fixUpdatedAtField
    split_ifs with hc
    · rfl
    · rcases hu with htu | rfl
      · rw [hvu] at hc
        simp [truthyOpt, htu] at hc
      · exact jsSetProp_eq_of_get hvu
  have hmap : mapExcept fixAlumnos elems = .ok elems :=
    mapExcept_id (fun c hc => by
      obtain ⟨es, ps, hg⟩ := (helems c hc).2
      exact fixAlumnos_id (helems c hc).1 hg)
  simp only [ensureStateShape, hguard, Bool.false_eq_true, if_false, h1, h2, h3, h4]
  rw [fixClasesElems_eq hcl, hmap]
  show Except.ok (jsSetProp d "clases" (.arr elems props)) = Except.ok d
  rw [jsSetProp_eq_of_get hcl]

/-- `ensureStateShape` cannot throw when the (kept) classes array contains
only objects. -/
theorem ensure_ok_of_clasesElemsOk {s : JSValue} (now : String)
    (h : clasesElemsOk s = true) : ∃ d, ensureStateShape s now = .ok d := by
  unfold ensureStateShape
  split_ifs with hg
  · exact ⟨baseDoc now, rfl⟩
  · have hobjy : isObjecty s = true := objy_of_guard hg
    obtain ⟨ho1, ⟨elems, props, hcl, hok⟩, _⟩ := fixClasesField_spec s hobjy
    obtain ⟨ho2, _, hpre2⟩ := fixAsistenciasField_spec (fixClasesField s) ho1
    obtain ⟨ho3, _, hpre3⟩ :=
      fixVersionField_spec (fixAsistenciasField (fixClasesField s)) ho2
    obtain ⟨ho4, _, hpre4⟩ :=
      fixUpdatedAtField_spec now
        (fixVersionField (fixAsistenciasField (fixClasesField s))) ho3
    have hcl4 : jsGetProp
        (fixUpdatedAtField now (fixVersionField (fixAsistenciasField (fixClasesField s))))
        "clases" = some (.arr elems props) := by
      rw [hpre4 _ (by decide), hpre3 _ (by decide), hpre2 _ (by decide)]
      exact hcl
    rw [fixClasesElems_eq hcl4]
    obtain ⟨l2, hl2⟩ := mapExcept_ok_of (fun c hc => fixAlumnos_ok_of (hok h c hc))
    rw [hl2]
    exact ⟨_, rfl⟩

/-- The strong invariant implies the stated well-formedness checks. -/
theorem strongWF_wellFormed {d : JSValue} {now : String} (h : StrongWF d now) :
    wellFormedDoc d = true := by
  obtain ⟨hobjy, ⟨elems, props, hcl, helems⟩, ⟨va, hva, htva, hova⟩,
    ⟨vv, hvv, htvv⟩, ⟨vu, hvu, _⟩⟩ := h
  unfold wellFormedDoc
  rw [hcl, hva, hvv, hvu]
  simp only [objy_truthy hobjy, objy_isObjType hobjy, htva, hova, truthyOpt,
    Option.isSome_some, htvv, Bool.and_true, Bool.true_and, Bool.and_self]
  rw [List.all_eq_true]
  intro c hc
  obtain ⟨es, ps, hg⟩ := (helems c hc).2
  simp [hg, isArrayOpt]

/-! ### Lexicographic comparison: totality and transitivity -/

theorem charListLe_total : ∀ as bs : List Char, (charListLe as bs || charListLe bs as) = true
  | [], [] => rfl
  | [], _ :: _ => rfl
  | _ :: _, [] => rfl
  | a :: as, b :: bs => by
    rcases Nat.lt_trichotomy a.toNat b.toNat with h | h | h
    · simp [charListLe, h]
    · simp only [charListLe, h, lt_self_iff_false, if_false]
      exact charListLe_total as bs
    · simp [charListLe, h, Nat.lt_asymm h]

theorem charListLe_trans : ∀ as bs cs : List Char,
    charListLe as bs = true → charListLe bs cs = true → charListLe as cs = true
  | [], _, _, _, _ => rfl
  | _ :: _, [], _, h1, _ => by simp [charListLe] at h1
  | _ :: _, _ :: _, [], _, h2 => by simp [charListLe] at h2
  | a :: as, b :: bs, c :: cs, h1, h2 => by
    simp only [charListLe] at h1 h2 ⊢
    split_ifs at h1 with hab hba
    · split_ifs at h2 with hbc hcb
      · rw [if_pos (Nat.lt_trans hab hbc)]
      · rw [if_pos (show a.toNat < c.toNat by omega)]
    · split_ifs at h2 with hbc hcb
      · rw [if_pos (show a.toNat < c.toNat by omega)]
      · rw [if_neg (show ¬ a.toNat < c.toNat by omega),
          if_neg (show ¬ c.toNat < a.toNat by omega)]
        exact charListLe_trans as bs cs h1 h2

theorem strLe_refl (a : String) : strLe a a = true := by
  unfold strLe
  induction a.data with
  | nil => rfl
  | cons c cs ih => simpa [charListLe] using ih

/-! ### Stable insertion sort: permutation and sortedness -/

theorem mem_insertLe {α : Type} (le : α → α → Bool) (x : α) (l : List α) (a : α) :
    a ∈ insertLe le x l ↔ a = x ∨ a ∈ l := by
  induction l with
  | nil => simp [insertLe]
  | cons y ys ih =>
    simp only [insertLe]
    split_ifs
    · simp [List.mem_cons]
    · simp only [List.mem_cons, ih]
      tauto

theorem perm_insertLe {α : Type} (le : α → α → Bool) (x : α) (l : List α) :
    (insertLe le x l).Perm (x :: l) := by
  induction l with
  | nil => simp [insertLe]
  | cons y ys ih =>
    simp only [insertLe]
    split_ifs
    · exact List.Perm.refl _
    · exact (ih.cons y).trans (List.Perm.swap x y ys)

theorem perm_jsSortBy {α : Type} (le : α → α → Bool) (l : List α) :
    (jsSortBy le l).Perm l := by
  induction l with
  | nil => exact List.Perm.refl _
  | cons x xs ih => exact (perm_insertLe le x (jsSortBy le xs)).trans (ih.cons x)

theorem pairwise_insertLe {α : Type} {le : α → α → Bool}
    (htot : ∀ a b, (le a b || le b a) = true)
    (htrans : ∀ a b c, le a b = true → le b c = true → le a c = true)
    (x : α) {l : List α} (h : l.Pairwise (fun a b => le a b = true)) :
    (insertLe le x l).Pairwise (fun a b => le a b = true) := by
  induction l with
  | nil => simp [insertLe]
  | cons y ys ih =>
    obtain ⟨hy, hys⟩ := List.pairwise_cons.mp h
    simp only [insertLe]
    split_ifs with hxy
    · refine List.pairwise_cons.mpr ⟨?_, h⟩
      intro z hz
      rcases List.mem_cons.mp hz with heq | hz2
      · subst heq
        exact hxy
      · exact htrans x y z hxy (hy z hz2)
    · refine List.pairwise_cons.mpr ⟨?_, ih hys⟩
      intro z hz
      rcases (mem_insertLe le x ys z).mp hz with heq | hz2
      · subst heq
        have h1 := htot z y
        rw [Bool.or_eq_true] at h1
        rcases h1 with h1 | h1
        · exact absurd h1 hxy
        · exact h1
      · exact hy z hz2

theorem pairwise_jsSortBy {α : Type} {le : α → α → Bool}
    (htot : ∀ a b, (le a b || le b a) = true)
    (htrans : ∀ a b c, le a b = true → le b c = true → le a c = true)
    (l : List α) : (jsSortBy le l).Pairwise (fun a b => le a b = true) := by
  induction l with
  | nil => simp [jsSortBy]
  | cons x xs ih => exact pairwise_insertLe htot htrans x ih

/-! ### Present-record counting -/

theorem countRegs_eq (rs : Regs) (acc : Nat) :
    countRegs rs acc = acc + rs.countP (fun e => regPresente e.2) := by
  induction rs generalizing acc with
  | nil => simp [countRegs]
  | cons r rest ih =>
    have hstep : countRegs (r :: rest) acc =
        countRegs rest (if regPresente r.2 then acc + 1 else acc) := rfl
    rw [hstep, ih, List.countP_cons]
    by_cases hp : regPresente r.2 = true
    · simp [hp]
      omega
    · simp only [Bool.not_eq_true] at hp
      simp [hp]

theorem countPresentes_eq_spec (pc : PorClase) : countPresentes pc = specPresentCount pc := by
  have h : ∀ acc, pc.foldl (fun acc e => countRegs e.2 acc) acc =
      acc + ((pc.map Prod.snd).flatten).countP (fun e => regPresente e.2) := by
    induction pc with
    | nil => intro acc; simp
    | cons e rest ih =>
      intro acc
      simp only [List.foldl_cons, List.map_cons, List.flatten_cons, List.countP_append]
      rw [ih, countRegs_eq]
      omega
  have h0 := h 0
  simp only [Nat.zero_add] at h0
  rw [show countPresentes pc = pc.foldl (fun acc e => countRegs e.2 acc) 0 from rfl, h0,
    specPresentCount, List.countP_eq_length_filter]

/-! ### `buildIdx` structure -/

theorem insertAll_append {α : Type} (idx ps qs : List (String × α)) :
    insertAll idx (ps ++ qs) = insertAll (insertAll idx ps) qs := by
  simp [insertAll, List.foldl_append]

theorem buildIdx_eq_insertAll (cs : List Clase) :
    buildIdx cs =
      insertAll [] ((cs.map (fun c => c.alumnos.map (fun a => (a.id, mkInfo c a)))).flatten) := by
  suffices h : ∀ idx : List (String × PersonaInfo),
      cs.foldl (fun idx c =>
        c.alumnos.foldl (fun idx2 a => setKey idx2 a.id (mkInfo c a)) idx) idx =
      insertAll idx ((cs.map (fun c => c.alumnos.map (fun a => (a.id, mkInfo c a)))).flatten) by
    exact h []
  induction cs with
  | nil => intro idx; simp [insertAll]
  | cons c rest ih =>
    intro idx
    simp only [List.foldl_cons, List.map_cons, List.flatten_cons, insertAll_append]
    have hinner : c.alumnos.foldl (fun idx2 a => setKey idx2 a.id (mkInfo c a)) idx =
        insertAll idx (c.alumnos.map (fun a => (a.id, mkInfo c a))) := by
      simp [insertAll, List.foldl_map]
    rw [hinner]
    exact ih _

theorem mem_keys_insertAll {α : Type} (ps : List (String × α)) :
    ∀ (idx : List (String × α)) (k : String),
      (k ∈ (insertAll idx ps).map Prod.fst ↔ k ∈ idx.map Prod.fst ∨ k ∈ ps.map Prod.fst) := by
  induction ps with
  | nil => intro idx k; simp [insertAll]
  | cons p rest ih =>
    intro idx k
    obtain ⟨k1, v1⟩ := p
    have hstep : insertAll idx ((k1, v1) :: rest) = insertAll (setKey idx k1 v1) rest := rfl
    rw [hstep, ih, mem_keys_setKey]
    simp only [List.map_cons, List.mem_cons]
    tauto

theorem nodup_keys_insertAll {α : Type} (ps : List (String × α)) :
    ∀ idx : List (String × α), (idx.map Prod.fst).Nodup →
      ((insertAll idx ps).map Prod.fst).Nodup := by
  induction ps with
  | nil => intro idx h; exact h
  | cons p rest ih =>
    intro idx h
    obtain ⟨k1, v1⟩ := p
    exact ih (setKey idx k1 v1) (nodup_keys_setKey idx k1 v1 h)

theorem forall_mem_insertAll {α : Type} {P : String × α → Prop} (ps : List (String × α)) :
    ∀ idx : List (String × α), (∀ kv ∈ idx, P kv) → (∀ p ∈ ps, P p) →
      ∀ kv ∈ insertAll idx ps, P kv := by
  induction ps with
  | nil => intro idx hidx _; exact hidx
  | cons p rest ih =>
    intro idx hidx hps
    obtain ⟨k1, v1⟩ := p
    exact ih (setKey idx k1 v1)
      (forall_mem_setKey idx k1 v1 hidx (hps (k1, v1) (List.mem_cons_self _ _)))
      (fun q hq => hps q (List.mem_cons_of_mem _ hq))

/-! ### Mutation-operation lemmas -/

theorem updFirstClase_not_found {cs : List Clase} {classId : String} (f : Clase → Clase)
    (h : cs.find? (fun c => c.id == classId) = none) : updFirstClase cs classId f = cs := by
  induction cs with
  | nil => rfl
  | cons c rest ih =>
    by_cases hc : (c.id == classId) = true
    · exact absurd h (by simp [List.find?, hc])
    · have hc2 : (c.id == classId) = false := by simpa using hc
      have h2 : rest.find? (fun c => c.id == classId) = none := by
        simpa [List.find?, hc2] using h
      simp [updFirstClase, hc2, ih h2]

theorem find?_updFirstClase {cs : List Clase} {classId : String} {f : Clase → Clase}
    (hid : ∀ c, (f c).id = c.id) :
    (updFirstClase cs classId f).find? (fun c => c.id == classId) =
      (cs.find? (fun c => c.id == classId)).map f := by
  induction cs with
  | nil => rfl
  | cons c rest ih =>
    by_cases hc : (c.id == classId) = true
    · have hfc : ((f c).id == classId) = true := by rw [hid c]; exact hc
      simp [updFirstClase, hc, List.find?, hfc]
    · have hc2 : (c.id == classId) = false := by simpa using hc
      simp [updFirstClase, hc2, List.find?, ih]

theorem filter_id_of_removed (l : List Alumno) (alumnoId : String) :
    (l.filter (fun a => !(a.id == alumnoId))).filter (fun a => a.id == alumnoId) = [] := by
  induction l with
  | nil => rfl
  | cons a rest ih =>
    by_cases ha : (a.id == alumnoId) = true
    · simp only [List.filter_cons, ha, Bool.not_true, if_false]
      exact ih
    · simp only [List.filter_cons, ha, Bool.not_false, if_true, if_false]
      simp [ha, ih]

theorem lookupReg_removeAlumnoFecha (pc : PorClase) (classId alumnoId : String) :
    (getKey (removeAlumnoFecha pc classId alumnoId) classId).bind
      (fun rs => getKey rs alumnoId) = none := by
  unfold removeAlumnoFecha
  cases hc : getKey pc classId with
  | none => simp [hc]
  | some rs =>
    cases hr : getKey rs alumnoId with
    | none => simp [hc, hr]
    | some r => simp [hr, getKey_updKey_self, hc, getKey_delKey_self]

/-! ## Claim theorems -/

/-- C1: the claim states that `currentAbsentStreak` counts the consecutive
most-recent absent dates, stopping at the first `present = true` while
walking backward.  The code violates this: the guard
`if (running === 0) currentAbsentStreak = 0` fires again at every later
(older) present date that immediately follows another present date in the
walk, resetting an already-computed positive streak to 0.  On `docStreakBug`
(five dates, absent on the three most recent, present on the two oldest
consecutive dates) the claim demands streak 3 and a dropout alert; the code
yields streak 0 and no alert, contradicting the in-code promise that a
3-week absence streak is detected and highlighted. -/
theorem c1_streak_reset_bug_eval :
    (personasOf docStreakBug).map
      (fun p => (p.alumnoId, p.semanas, p.presentes, p.currentAbsentStreak, p.abandono)) =
      [("p1", 5, 2, 0, false)] := by
  rfl

/-- C2 counterexample: the claim promises error-free normalization for every
input, with `version ≥ 1` afterwards.  But (a) a `clases` array containing
`null` makes `ensureStateShape` throw a `TypeError` when reading
`c.alumnos`, and (b) a truthy negative `version` is kept as-is, violating
`version ≥ 1`. -/
theorem c2_counterexample :
    ensureStateShape (.obj [("clases", .arr [.null] [])]) "2025-01-01T00:00:00Z" =
      .error "TypeError: Cannot read properties of null" ∧
    ensureStateShape (.obj [("version", .num (-5))]) "2025-01-01T00:00:00Z" =
      .ok (.obj [("version", .num (-5)), ("clases", defaultClases),
                 ("asistencias", .obj []), ("updatedAt", .str "2025-01-01T00:00:00Z")]) ∧
    (-5 : Int) < 1 :=
  ⟨rfl, rfl, by decide⟩

/-- C2 (amended): for every input whose `clases` field, when it is an array,
contains only objects or arrays, `ensureStateShape` terminates without error
and returns a well-formed document: `clases` is an array whose classes all
carry an array roster, `asistencias` is a truthy object, `version` is truthy
(1 when the input's was falsy), and `updatedAt` is set. -/
theorem c2_normalizer_total (s : JSValue) (now : String) (h : clasesElemsOk s = true) :
    ∃ d, ensureStateShape s now = .ok d ∧ wellFormedDoc d = true := by
  obtain ⟨d, hd⟩ := ensure_ok_of_clasesElemsOk now h
  exact ⟨d, hd, strongWF_wellFormed (ensure_ok_strongWF hd)⟩

/-- C2 witness: a malformed but object-only input normalizes successfully. -/
theorem c2_normalizer_total_witness :
    clasesElemsOk (.obj [("clases", .str "nope"), ("version", .num 7)]) = true ∧
    ∃ d, ensureStateShape (.obj [("clases", .str "nope"), ("version", .num 7)])
        "2025-01-01T00:00:00Z" = .ok d ∧ wellFormedDoc d = true :=
  ⟨rfl, c2_normalizer_total (.obj [("clases", .str "nope"), ("version", .num 7)])
    "2025-01-01T00:00:00Z" rfl⟩

/-- C3 counterexample: `changeDocente` with an unknown class id is not a
no-op — it refreshes `updatedAt` unconditionally, so the returned document
differs from the input. -/
theorem c3_counterexample :
    docNoClasses.clases.find? (fun c => c.id == "logos") = none ∧
    changeDocente docNoClasses "logos" "María" "2025-02-01T00:00:00Z" ≠ docNoClasses ∧
    (changeDocente docNoClasses "logos" "María" "2025-02-01T00:00:00Z").updatedAt =
      "2025-02-01T00:00:00Z" :=
  ⟨rfl, by decide, rfl⟩

/-- C3 (amended): when `classId` matches no class, `setTeacher` leaves every
field of the document unchanged except `updatedAt`, which is refreshed to the
current time; no teacher name is modified. -/
theorem c3_setTeacher_missing_class (doc : Doc) (classId docente now : String)
    (h : doc.clases.find? (fun c => c.id == classId) = none) :
    changeDocente doc classId docente now = { doc with updatedAt := now } := by
  unfold changeDocente
  rw [updFirstClase_not_found _ h]

/-- C3 witness: concrete missing-class call shows only `updatedAt` changes. -/
theorem c3_setTeacher_missing_class_witness :
    changeDocente docNoClasses "logos" "María" "2025-02-01T00:00:00Z" =
      { docNoClasses with updatedAt := "2025-02-01T00:00:00Z" } :=
  c3_setTeacher_missing_class docNoClasses "logos" "María" "2025-02-01T00:00:00Z" rfl

/-- C4 counterexample: the regex `[^+\d]` keeps every `+`, not only a leading
one: on `"1+2"` the code returns `"1+2"` while the spec-described function
returns `"12"`. -/
theorem c4_counterexample :
    normalizePhone "1+2" = "1+2" ∧ specNormalizePhone "1+2" = "12" ∧
    normalizePhone "1+2" ≠ specNormalizePhone "1+2" :=
  ⟨rfl, rfl, by decide⟩

/-- C4 (amended): the phone normalization keeps every decimal digit and every
plus sign — wherever the plus occurs — with multiplicity, preserves their
order (the result is a sublist of the input), and strips every other
character. -/
theorem c4_phone_filter (t : String) :
    (normalizePhone t).data.Sublist t.data ∧
    ∀ c : Char, (normalizePhone t).data.count c =
      if c = '+' ∨ c.isDigit then t.data.count c else 0 := by
  constructor
  · exact List.filter_sublist _
  · intro c
    by_cases hc : c = '+' ∨ c.isDigit
    · rw [if_pos hc]
      refine List.count_filter ?_
      rcases hc with rfl | hd
      · simp
      · simp [hd]
    · rw [if_neg hc]
      rw [List.count_eq_zero]
      intro hmem
      rcases List.mem_filter.mp hmem with ⟨_, hkeep⟩
      rw [Bool.or_eq_true] at hkeep
      rcases hkeep with h1 | h1
      · exact hc (Or.inl (by simpa using h1))
      · exact hc (Or.inr h1)

/-- C5: after `removeAlumno` on an existing class, no date in the resulting
attendance maps `(classId, alumnoId)` to a record, and the roster of the
class with that id contains no person with that id. -/
theorem c5_removePerson_cascade (doc : Doc) (classId alumnoId now : String)
    (h : (doc.clases.find? (fun c => c.id == classId)).isSome = true) :
    (∀ fecha, lookupReg (removeAlumno doc classId alumnoId now).asistencias
        fecha classId alumnoId = none) ∧
    ((removeAlumno doc classId alumnoId now).clases.find?
        (fun c => c.id == classId)).map
      (fun c => c.alumnos.filter (fun a => a.id == alumnoId)) = some [] := by
  obtain ⟨c0, hc0⟩ := Option.isSome_iff_exists.mp h
  have hred : removeAlumno doc classId alumnoId now =
      { doc with
        clases := updFirstClase doc.clases classId
          (fun c => { c with alumnos := c.alumnos.filter (fun a => !(a.id == alumnoId)) }),
        asistencias := doc.asistencias.map
          (fun e => (e.1, removeAlumnoFecha e.2 classId alumnoId)),
        updatedAt := now } := by
    unfold removeAlumno
    rw [hc0]
  rw [hred]
  constructor
  · intro fecha
    show ((getKey (doc.asistencias.map
        (fun e => (e.1, removeAlumnoFecha e.2 classId alumnoId))) fecha).bind
      fun pc => (getKey pc classId).bind fun rs => getKey rs alumnoId) = none
    rw [getKey_map_value doc.asistencias
      (fun pc => removeAlumnoFecha pc classId alumnoId) fecha]
    cases hg : getKey doc.asistencias fecha with
    | none => rfl
    | some pc => exact lookupReg_removeAlumnoFecha pc classId alumnoId
  · show (((updFirstClase doc.clases classId
        (fun c => { c with alumnos := c.alumnos.filter (fun a => !(a.id == alumnoId)) })).find?
        (fun c => c.id == classId)).map
      (fun c => c.alumnos.filter (fun a => a.id == alumnoId))) = some []
    rw [@find?_updFirstClase doc.clases classId
      (fun c => { c with alumnos := c.alumnos.filter (fun a => !(a.id == alumnoId)) })
      (fun c => rfl), hc0]
    simp only [Option.map_some']
    rw [filter_id_of_removed]

/-- C5 witness: removing the only person of `docOnePresence` erases their
attendance record and empties the roster of matching ids. -/
theorem c5_removePerson_cascade_witness :
    lookupReg (removeAlumno docOnePresence "c1" "a1" "2025-01-06T00:00:00Z").asistencias
      "2025-01-05" "c1" "a1" = none :=
  (c5_removePerson_cascade docOnePresence "c1" "a1" "2025-01-06T00:00:00Z" rfl).1
    "2025-01-05"

/-- C6: normalization is idempotent — re-normalizing the document produced by
`ensureStateShape` (with the current-timestamp input held fixed) returns it
unchanged. -/
theorem c6_normalize_idempotent (x : JSValue) (now : String) (d : JSValue)
    (h : ensureStateShape x now = .ok d) : ensureStateShape d now = .ok d :=
  strongWF_fix (ensure_ok_strongWF h)

/-- C6 witness: the default document produced from `null` is a fixed point. -/
theorem c6_normalize_idempotent_witness :
    ensureStateShape (baseDoc "2025-01-01T00:00:00Z") "2025-01-01T00:00:00Z" =
      .ok (baseDoc "2025-01-01T00:00:00Z") :=
  c6_normalize_idempotent .null "2025-01-01T00:00:00Z" (baseDoc "2025-01-01T00:00:00Z") rfl

/-- C7: for normalized documents (nonempty `updatedAt` timestamps), the
startup reconciliation picks the remote document exactly when its
`updatedAt` is lexicographically greater than the local one, and the local
document otherwise. -/
theorem c7_reconcile_newer_wins (localDoc remoteDoc : Doc)
    (hl : localDoc.updatedAt.isEmpty = false) (hr : remoteDoc.updatedAt.isEmpty = false) :
    reconcileNewer localDoc remoteDoc =
      if strLe remoteDoc.updatedAt localDoc.updatedAt = true then localDoc
      else remoteDoc := by
  unfold reconcileNewer jsTimestampGt
  rw [hl, hr]
  cases hs : strLe remoteDoc.updatedAt localDoc.updatedAt <;> simp [hs]

/-- C7 witness: the spec's example — remote at `2025-01-02` beats local at
`2025-01-01`. -/
theorem c7_reconcile_newer_wins_witness :
    reconcileNewer docLocalOld docRemoteNew = docRemoteNew :=
  (c7_reconcile_newer_wins docLocalOld docRemoteNew rfl rfl).trans (by decide)

/-- C8: the by-date series has exactly the entries `(date, count)` for the
date keys of the attendance mapping — `count` being the number of records of
that date with `present = true` across all classes and persons — and is
sorted ascending by lexicographic comparison of the date strings. -/
theorem c8_by_date_series (asis : Asistencias) :
    (serieByDate asis).Perm (asis.map (fun e => (e.1, specPresentCount e.2))) ∧
    (serieByDate asis).Pairwise (fun p q => strLe p.1 q.1 = true) := by
  constructor
  · have hperm := perm_jsSortBy (fun a b : String × Nat => strLe a.1 b.1)
      (asis.map (fun e => (e.1, countPresentes e.2)))
    have hmaps : asis.map (fun e => (e.1, countPresentes e.2)) =
        asis.map (fun e => (e.1, specPresentCount e.2)) :=
      List.map_congr_left (fun e _ => by rw [countPresentes_eq_spec])
    exact hmaps ▸ hperm
  · exact pairwise_jsSortBy (fun a b => charListLe_total a.1.data b.1.data)
      (fun a b c h1 h2 => charListLe_trans a.1.data b.1.data c.1.data h1 h2) _

/-- C9 counterexample: two persons in different classes share the id `"p"`;
the claim demands one metrics entry per `(classId, personId)` pair (two
entries here), but the per-person index is keyed by the person id alone, so
the second class's person overwrites the first and only one entry remains. -/
theorem c9_counterexample :
    docSharedIds.clases.map (fun c => (c.id, c.alumnos.map (fun a => a.id))) =
      [("c1", ["p"]), ("c2", ["p"])] ∧
    (personasOf docSharedIds).map (fun p => (p.classId, p.alumnoId)) = [("c2", "p")] :=
  ⟨rfl, rfl⟩

/-- C9 (amended): the per-person metrics output contains exactly one entry
per distinct person id occurring in any roster (persons of different classes
sharing an id collapse into a single entry), stated as a permutation with
the first-occurrence deduplication of the id stream. -/
theorem c9_one_entry_per_person_id (state : Doc) :
    ((personasOf state).map (fun p => p.alumnoId)).Perm
      ((((state.clases.map (fun c => c.alumnos)).flatten).map (fun a => a.id)).dedup) := by
  have h1 : ((personasOf state).map (fun p => p.alumnoId)).Perm
      (((buildIdx state.clases).map
        (fun e => mkStats e.2 (jsSortBy strLe (state.asistencias.map Prod.fst))
          state.asistencias)).map (fun p => p.alumnoId)) :=
    (perm_jsSortBy personaLe _).map _
  have h2 : (((buildIdx state.clases).map
      (fun e => mkStats e.2 (jsSortBy strLe (state.asistencias.map Prod.fst))
        state.asistencias)).map (fun p => p.alumnoId)) =
      (buildIdx state.clases).map (fun e => e.2.alumnoId) := by
    rw [List.map_map]
    rfl
  have hvals : ∀ kv ∈ buildIdx state.clases, kv.2.alumnoId = kv.1 := by
    rw [buildIdx_eq_insertAll]
    refine forall_mem_insertAll _ [] (by simp) ?_
    intro p hp
    rcases List.mem_flatten.mp hp with ⟨l, hl, hpl⟩
    rcases List.mem_map.mp hl with ⟨c, _, rfl⟩
    rcases List.mem_map.mp hpl with ⟨a, _, rfl⟩
    rfl
  have h3 : (buildIdx state.clases).map (fun e => e.2.alumnoId) =
      (buildIdx state.clases).map Prod.fst :=
    List.map_congr_left hvals
  have hkeysId : (((state.clases.map
      (fun c => c.alumnos.map (fun a => (a.id, mkInfo c a)))).flatten).map Prod.fst) =
      (((state.clases.map (fun c => c.alumnos)).flatten).map (fun a => a.id)) := by
    rw [List.map_flatten, List.map_flatten]
    congr 1
    rw [List.map_map, List.map_map]
    apply List.map_congr_left
    intro c _
    simp [List.map_map]
  have hnodup : ((buildIdx state.clases).map Prod.fst).Nodup := by
    rw [buildIdx_eq_insertAll]
    exact nodup_keys_insertAll _ [] (by simp)
  have hmem : ∀ k, k ∈ (buildIdx state.clases).map Prod.fst ↔
      k ∈ (((state.clases.map (fun c => c.alumnos)).flatten).map (fun a => a.id)) := by
    intro k
    rw [buildIdx_eq_insertAll, mem_keys_insertAll, ← hkeysId]
    simp
  have h4 : ((buildIdx state.clases).map Prod.fst).Perm
      ((((state.clases.map (fun c => c.alumnos)).flatten).map (fun a => a.id)).dedup) := by
    rw [List.perm_ext_iff_of_nodup hnodup (List.nodup_dedup _)]
    intro a
    rw [List.mem_dedup]
    exact hmem a
  exact ((h1.trans (List.Perm.of_eq h2)).trans (List.Perm.of_eq h3)).trans h4

/-- C10: when the local and remote `updatedAt` timestamps are equal, the
local document becomes the active state — the remote wins only on a strictly
greater timestamp. -/
theorem c10_reconcile_tie_keeps_local (localDoc remoteDoc : Doc)
    (h : localDoc.updatedAt = remoteDoc.updatedAt) :
    reconcileNewer localDoc remoteDoc = localDoc := by
  unfold reconcileNewer jsTimestampGt
  rw [← h]
  by_cases he : localDoc.updatedAt.isEmpty = true
  · simp [he]
  · have hne : localDoc.updatedAt.isEmpty = false := by simpa using he
    simp [hne, strLe_refl]

/-- C10 witness: equal timestamps with different contents — local is kept. -/
theorem c10_reconcile_tie_keeps_local_witness :
    reconcileNewer docLocalOld docRemoteTie = docLocalOld :=
  c10_reconcile_tie_keeps_local docLocalOld docRemoteTie rfl

end Ibbla
